import Mathlib

/-!
Verification of the idempotent event-ingestion pipeline of `app.py`
(Slack paper-summarizer bot).

The program is shallowly embedded: Python `str` becomes `String`
(or `List Char` at the character-scanning level), `dict.get` of an
optional field becomes `Option`, Python truthiness of an optional
string is modelled by `pyTruthy`, and the two regular expressions
used by the bot are modelled by executable character scanners that
implement exactly the leftmost-match semantics of `re.search` for
those two concrete patterns.  External collaborators (HTTP fetch,
OpenAI summarization, Slack post) are parameters or plain records.
-/

/-- Python truthiness of an optional string: `None` and `""` are falsy. -/
def pyTruthy : Option String → Bool
  | none => false
  | some s => decide (s ≠ "")

/-- Python regex `\s` (whitespace) restricted to its ASCII members, which is
what the `re` module matches on the ASCII texts handled here. -/
def pyIsSpace (c : Char) : Bool :=
  decide (c = ' ' ∨ c = '\t' ∨ c = '\n' ∨ c = '\r' ∨ c = '\x0b' ∨ c = '\x0c')

/-- Characters stripped from the end of a matched URL by
`re.sub(r'[.,;:!?)]+$', '', url)` in `extract_url`. -/
def isTrailPunct (c : Char) : Bool :=
  decide (c = '.' ∨ c = ',' ∨ c = ';' ∨ c = ':' ∨ c = '!' ∨ c = '?' ∨ c = ')')

/-- Does `pat` occur at the very start of `l`? -/
def startsWith : List Char → List Char → Bool
  | [], _ => true
  | _ :: _, [] => false
  | p :: ps, c :: cs => if p = c then startsWith ps cs else false

/-- Python substring test `pat in text` on character lists. -/
def hasSubstr (pat : List Char) : List Char → Bool
  | [] => startsWith pat []
  | c :: cs => startsWith pat (c :: cs) || hasSubstr pat cs

/-- The literal `http` looked for by `'http' in text`. -/
def httpSub : List Char := ['h', 't', 't', 'p']

/-- `LimitedSizeDict` of `app.py` (lines 28-41): an insertion-ordered key set
with an optional size bound.  Values are always `True` in the program, so only
the ordered keys are modelled.  Keys are `Option String` because the pipeline
can use Python `None` as a dictionary key (both id fields absent). -/
structure LimitedSizeDict where
  keys : List (Option String)
  size_limit : Option Nat
deriving DecidableEq

/-- The `while len(self) > self.size_limit: self.popitem(last=False)` loop of
`_check_size_limit`: repeatedly evict the oldest (front) entry while over the
bound. -/
def evictOldest (n : Nat) : List (Option String) → List (Option String)
  | [] => []
  | k :: ks => if ks.length + 1 > n then evictOldest n ks else k :: ks

/-- `_check_size_limit`: a `None` bound disables eviction. -/
def applyLimit : Option Nat → List (Option String) → List (Option String)
  | none, l => l
  | some n, l => evictOldest n l

/-- `LimitedSizeDict.__setitem__`: an existing key keeps its position
(`OrderedDict` semantics), a new key is appended at the end; then
`_check_size_limit` runs. -/
def setItem (d : LimitedSizeDict) (k : Option String) : LimitedSizeDict :=
  ⟨applyLimit d.size_limit (if k ∈ d.keys then d.keys else d.keys ++ [k]), d.size_limit⟩

/-- Folding `__setitem__` over a list of keys (inserting them in order). -/
def insertAll (d : LimitedSizeDict) (l : List (Option String)) : LimitedSizeDict :=
  l.foldl setItem d

/-- What `pickle.dump` writes for a `LimitedSizeDict`: `OrderedDict.__reduce__`
round-trips the ordered items together with the instance dictionary, which
holds the `size_limit` attribute.  So the stored record carries both the
ordered id set and the capacity. -/
structure StoredState where
  size_limit : Option Nat
  keys : List (Option String)
deriving DecidableEq

/-- `save_processed_messages` (lines 52-54): pickles the whole dict, i.e. its
ordered keys and its `size_limit` attribute. -/
def saveProcessedMessages (d : LimitedSizeDict) : StoredState :=
  ⟨d.size_limit, d.keys⟩

/-- The possible states of `processed_messages.pkl` at startup. -/
inductive StoreFile
  | missing
  | corrupt
  | present (s : StoredState)

/-- `load_processed_messages` (lines 44-49): `open` + `pickle.load` inside a
`try` that catches only `FileNotFoundError`.  A missing file yields a fresh
empty `LimitedSizeDict(size_limit=1000)`; a corrupt file makes `pickle.load`
raise (e.g. `UnpicklingError`), which is not caught and propagates; a readable
pickle is returned as-is, including its stored `size_limit`. -/
def load_processed_messages : StoreFile → Except String LimitedSizeDict
  | StoreFile.missing => Except.ok ⟨[], some 1000⟩
  | StoreFile.corrupt => Except.error "UnpicklingError"
  | StoreFile.present s => Except.ok ⟨s.keys, s.size_limit⟩

/-- Match one of the scheme literals `https://` / `http://` at the head of the
input, longest (the `s` of `https?` is greedy) first; returns the matched
characters and the remainder.  This is the `https?://` part of both regexes. -/
def dropMatch : List Char → List Char → Option (List Char)
  | [], l => some l
  | _ :: _, [] => none
  | p :: ps, c :: cs => if p = c then dropMatch ps cs else none

/-- The characters of `http://`. -/
def schemeHttp : List Char := ['h', 't', 't', 'p', ':', '/', '/']

/-- The characters of `https://`. -/
def schemeHttps : List Char := ['h', 't', 't', 'p', 's', ':', '/', '/']

/-- Try to match `https?://` at the current position (greedy `s?`: the `https`
alternative is tried first, exactly as the regex engine does). -/
def matchSchemeAt (l : List Char) : Option (List Char × List Char) :=
  match dropMatch schemeHttps l with
  | some r => some (schemeHttps, r)
  | none =>
    match dropMatch schemeHttp l with
    | some r => some (schemeHttp, r)
    | none => none

/-- `re.search(r'(https?://\S+)', text)` (line 187): leftmost position where
the scheme matches followed by at least one non-whitespace character; the
greedy `\S+` then takes every following non-whitespace character. -/
def searchPlainUrl : List Char → Option (List Char)
  | [] => none
  | c :: cs =>
    match matchSchemeAt (c :: cs) with
    | some (sch, r) =>
      if (r.takeWhile (fun d => !(pyIsSpace d))).isEmpty then searchPlainUrl cs
      else some (sch ++ r.takeWhile (fun d => !(pyIsSpace d)))
    | none => searchPlainUrl cs

/-- `re.sub(r'[.,;:!?)]+$', '', url)` (line 191): strip the maximal trailing
run of sentence punctuation. -/
def stripTrailingPunct (u : List Char) : List Char :=
  (u.reverse.dropWhile isTrailPunct).reverse

/-- `extract_url` (lines 184-197): plain substring scan, then trailing
punctuation stripping.  Returns `none` when no match. -/
def extract_url (s : String) : Option String :=
  match searchPlainUrl s.data with
  | some u => some (String.mk (stripTrailingPunct u))
  | none => none

/-- A character allowed inside the URL part `[^>|]+` of the angle-bracket
regex. -/
def angleBodyChar (c : Char) : Bool := decide (c ≠ '>' ∧ c ≠ '|')

/-- A character allowed inside the label part `[^>]+` of the angle-bracket
regex. -/
def labChar (c : Char) : Bool := decide (c ≠ '>')

/-- Match `<(https?://[^>|]+)(?:\|[^>]+)?>` at the current position, returning
`(group 0, group 1)`: the whole bracketed form and the bare URL.  The excluded
characters make both `+` repetitions deterministic, so no further backtracking
is needed beyond the failure cases returned as `none`. -/
def matchAngleAt : List Char → Option (List Char × List Char)
  | '<' :: r =>
    match matchSchemeAt r with
    | some (sch, r2) =>
      let body := r2.takeWhile angleBodyChar
      if body.isEmpty then none
      else
        match r2.drop body.length with
        | '>' :: _ => some ('<' :: (sch ++ (body ++ ['>'])), sch ++ body)
        | '|' :: r4 =>
          let lab := r4.takeWhile labChar
          if lab.isEmpty then none
          else
            match r4.drop lab.length with
            | '>' :: _ =>
              some ('<' :: (sch ++ (body ++ ('|' :: (lab ++ ['>'])))), sch ++ body)
            | _ => none
        | _ => none
    | none => none
  | _ => none

/-- `re.search(r'<(https?://[^>|]+)(?:\|[^>]+)?>', text)` (line 148): the
leftmost position where the angle-bracket pattern matches. -/
def searchAngle : List Char → Option (List Char × List Char)
  | [] => none
  | c :: cs =>
    match matchAngleAt (c :: cs) with
    | some g => some g
    | none => searchAngle cs

/-- One step of Python `str.replace`: fuelled left-to-right, non-overlapping
replacement of `pat` by `rep`.  The fuel (initially the length of the string)
only bounds the recursion; it is never exhausted on the real argument because
every step consumes at least one character. -/
def replaceGo (pat rep : List Char) : Nat → List Char → List Char
  | _, [] => []
  | 0, l => l
  | fuel + 1, c :: cs =>
    match dropMatch pat (c :: cs) with
    | some rest => rep ++ replaceGo pat rep fuel rest
    | none => c :: replaceGo pat rep fuel cs

/-- Python `text.replace(old, new)` on character lists.  The empty-pattern
guard is unreachable in this program: the replaced string always starts with
`<`. -/
def strReplace (s pat rep : List Char) : List Char :=
  if pat.isEmpty then s else replaceGo pat rep s.length s

/-- Lines 148-152 of `handle_message`: if the angle-bracket regex matches, the
message text is rewritten by replacing the whole bracketed form (group 0) with
the bare URL (group 1) before `extract_url` runs. -/
def rewriteAngle (s : String) : String :=
  match searchAngle s.data with
  | some (g0, g1) => String.mk (strReplace s.data g0 g1)
  | none => s

/-- The `text` value of a `section` block: `block.get('text', {})` may be a
dict (possibly without a `text` entry) or something else (`isinstance` check
on line 123). -/
inductive TextObj
  | dict (text : Option String)
  | nondict
deriving DecidableEq

/-- An element of the innermost `elements` list of a rich-text section; only
its `type` tag and optional `url` field are ever read. -/
structure RTItem where
  type : Option String
  url : Option String
deriving DecidableEq

/-- An element of a rich-text block (`rich_text_section` or otherwise); a
missing `elements` field defaults to `[]` (`element.get('elements', [])`). -/
structure RTElement where
  type : Option String
  elements : List RTItem
deriving DecidableEq

/-- A Slack block: `type` tag, rich-text `elements` (default `[]`), and the
`text` object used by `section` blocks. -/
structure Block where
  type : Option String
  elements : List RTElement
  text : Option TextObj
deriving DecidableEq

/-- The fields of the inbound `event` payload the program reads.  Every field
is optional: the payload is an untrusted duck-typed mapping. -/
structure SlackEvent where
  type : Option String
  subtype : Option String
  bot_id : Option String
  client_msg_id : Option String
  ts : Option String
  thread_ts : Option String
  text : Option String
  user : Option String
  channel : Option String
  blocks : Option (List Block)
deriving DecidableEq

/-- The whole request body: an optional `challenge` token and an optional
`event` payload. -/
structure EventData where
  challenge : Option String
  event : Option SlackEvent
deriving DecidableEq

/-- Lines 79-82: `message_id = event.get('client_msg_id')` and, when that is
falsy (`None` or `""`), `message_id = event.get('ts')`.  The result can be
Python `None`, which is then used as the cache key. -/
def messageId (e : SlackEvent) : Option String :=
  match e.client_msg_id with
  | some s => if s = "" then e.ts else some s
  | none => e.ts

/-- Lines 114-118 and 164-168: the innermost item loop with its `break`; the
first item of a section that is link-typed and carries a `url` field yields
that url. -/
def firstLinkInSection : List RTItem → Option String
  | [] => none
  | it :: rest =>
    if it.type = some "link" ∧ it.url.isSome = true then it.url
    else firstLinkInSection rest

/-- Lines 162-168: the loop over the elements of one rich-text block.  The
`break` only leaves the innermost item loop, so a later `rich_text_section`
that contains a link overwrites the `url` found in an earlier one. -/
def scanElements (u : Option String) (els : List RTElement) : Option String :=
  els.foldl
    (fun acc el =>
      if el.type = some "rich_text_section" then
        match firstLinkInSection el.elements with
        | some v => some v
        | none => acc
      else acc)
    u

/-- Lines 160-168: the loop over all blocks; only `rich_text` blocks are
scanned in `handle_message`. -/
def scanBlocks (u : Option String) (bs : List Block) : Option String :=
  bs.foldl (fun acc b => if b.type = some "rich_text" then scanElements acc b.elements else acc) u

/-- Lines 121-125 of `slack_events`: a `section` block sets `has_url` when its
`text` value is a dict whose `text` entry contains `http`. -/
def sectionTextHasUrl : Option TextObj → Bool
  | some (TextObj.dict inner) => hasSubstr httpSub (inner.getD "").data
  | some TextObj.nondict => false
  | none => false

/-- Lines 107-125: does one block make `has_url` true? -/
def blockHasUrl (b : Block) : Bool :=
  if b.type = some "rich_text" then
    b.elements.any fun el =>
      decide (el.type = some "rich_text_section") &&
        el.elements.any fun it => decide (it.type = some "link") && it.url.isSome
  else if b.type = some "section" then sectionTextHasUrl b.text
  else false

/-- Lines 93-125 of `slack_events`: `has_url` is true when the plain text
contains `http`, or (otherwise, and only when a `blocks` field is present)
when some block carries a URL. -/
def eventHasUrl (e : SlackEvent) : Bool :=
  hasSubstr httpSub (e.text.getD "").data ||
    (e.blocks.isSome && (e.blocks.getD []).any blockHasUrl)

/-- Line 177: `reply_thread_ts = thread_ts if thread_ts else message_ts`,
with `message_ts = event.get('ts', '')`.  Note Python truthiness: a present
but empty `thread_ts` falls back to `message_ts`. -/
def replyThreadTs (e : SlackEvent) : String :=
  match e.thread_ts with
  | some t => if t = "" then e.ts.getD "" else t
  | none => e.ts.getD ""

/-- The observable effect of `post_summary_to_slack` (lines 257-264): the
channel, mentioned user, message text and thread timestamp of the
`chat_postMessage` call. -/
structure Reply where
  channel : String
  user : String
  text : String
  thread_ts : String
deriving DecidableEq

/-- The f-string body posted on line 262. -/
def mkReplyText (user summary : String) : String :=
  "<@" ++ user ++ "> Here\x27s the summary of the linked paper:\n" ++ summary

/-- `handle_message` (lines 138-182), with `fetch_and_summarize` abstracted as
the collaborator `f` (it always returns a string; error paths return error
text).  Returns the URL the extractor settled on and the reply that was
posted, if any: the reply is posted only when the url is truthy and the
summary is truthy (`if url:` / `if summary:`). -/
def handle_message (e : SlackEvent) (f : String → String) : Option String × Option Reply :=
  let text := rewriteAngle (e.text.getD "")
  let url0 := extract_url text
  let url :=
    if pyTruthy url0 = false ∧ e.blocks.isSome = true then
      scanBlocks url0 (e.blocks.getD [])
    else url0
  let reply :=
    if pyTruthy url = true then
      let summary := f (url.getD "")
      if pyTruthy (some summary) = true then
        some ⟨e.channel.getD "", e.user.getD "",
              mkReplyText (e.user.getD "") summary, replyThreadTs e⟩
      else none
    else none
  (url, reply)

/-- The response statuses the endpoint can signal. -/
inductive SlackResponse
  | challengeEcho (value : String)
  | skipped
  | alreadyProcessed
  | ok
deriving DecidableEq

/-- The observable outcome of one delivery: the JSON status returned, the
cache state afterwards, and whether `handle_message` ran (with its result). -/
structure PipeResult where
  response : SlackResponse
  cache : LimitedSizeDict
  dispatched : Option (Option String × Option Reply)
deriving DecidableEq

/-- `slack_events` (lines 59-136): challenge echo; skip rule for
`message_changed` edits and truthy `bot_id`; for `message` events the
dedup check against the cache, mark-before-dispatch insertion, and the
`has_url`-gated call to `handle_message`.  Any other event type falls through
to the final `return jsonify({'status': 'ok'})`. -/
def slack_events (cache : LimitedSizeDict) (f : String → String) (data : EventData) : PipeResult :=
  match data.challenge with
  | some c => ⟨SlackResponse.challengeEcho c, cache, none⟩
  | none =>
    match data.event with
    | none => ⟨SlackResponse.ok, cache, none⟩
    | some e =>
      if e.subtype = some "message_changed" ∨ pyTruthy e.bot_id = true then
        ⟨SlackResponse.skipped, cache, none⟩
      else if e.type = some "message" then
        if messageId e ∈ cache.keys then ⟨SlackResponse.alreadyProcessed, cache, none⟩
        else
          ⟨SlackResponse.ok, setItem cache (messageId e),
            if eventHasUrl e then some (handle_message e f) else none⟩
      else ⟨SlackResponse.ok, cache, none⟩

/-- A concrete stand-in for the `fetch_and_summarize` collaborator, used by
the concrete evaluation theorems. -/
def summarizeConst : String → String := fun _ => "ok summary"



/-! ### Concrete inputs used by the evaluation (witness / counterexample)
theorems. -/

/-- An empty cache with a small capacity, for concrete runs. -/
def emptyCache3 : LimitedSizeDict := ⟨[], some 3⟩

/-- A plain message event carrying id `m1`. -/
def eW1 : SlackEvent :=
  ⟨some "message", none, none, some "m1", some "1.0", none, some "", none, none, none⟩

/-- The spec's own extraction-precedence example text, as an event. -/
def eW3 : SlackEvent :=
  ⟨some "message", none, none, some "m3", some "3.0", none,
    some "<https://a.com|paper> see also https://b.com", some "U3", some "C3", none⟩

/-- A text in which a plain URL precedes the angle-bracket link. -/
def eC3x : SlackEvent :=
  ⟨some "message", none, none, some "m3x", some "3.1", none,
    some "https://c.com <https://a.com|paper> see also https://b.com", some "U3", some "C3", none⟩

/-- A message whose `bot_id` field is present but an empty string. -/
def eC4x : SlackEvent :=
  ⟨some "message", none, some "", some "mX", some "9.9", none,
    some "see https://x.com", none, none, none⟩

/-- An edited-message event (`subtype = "message_changed"`). -/
def eW4 : SlackEvent :=
  ⟨some "message", some "message_changed", none, some "m4", some "4.0", none,
    some "see https://x.com", none, none, none⟩

/-- Items of the first rich-text section: one link. -/
def itemsW5a : List RTItem := [⟨some "link", some "https://first.example"⟩]

/-- Items of the second rich-text section: another link. -/
def itemsW5b : List RTItem := [⟨some "link", some "https://second.example"⟩]

/-- A message with no URL in its text but two link-bearing rich-text
sections in its blocks. -/
def eW5 : SlackEvent :=
  ⟨some "message", none, none, some "m5", some "5.0", none, none, none, none,
    some [⟨some "rich_text",
           [⟨some "rich_text_section", itemsW5a⟩, ⟨some "rich_text_section", itemsW5b⟩],
           none⟩]⟩

/-- An event whose type is not `message`. -/
def eC7x : SlackEvent :=
  ⟨some "reaction_added", none, none, some "m7", some "7.0", none, some "", none, none, none⟩

/-- A threaded message (`thread_ts` present and non-empty). -/
def eW8 : SlackEvent :=
  ⟨some "message", none, none, some "m8", some "100.5", some "100.1",
    some "see https://x.com", some "U8", some "C8", none⟩

/-- The reply `handle_message` posts for `eW8` with the constant summarizer. -/
def rW8 : Reply := ⟨"C8", "U8", mkReplyText "U8" "ok summary", "100.1"⟩

/-- A message whose `thread_ts` field is present but an empty string. -/
def eC8x : SlackEvent :=
  ⟨some "message", none, none, some "m8x", some "200.0", some "",
    some "see https://x.com", some "U8", some "C8", none⟩

/-- A message event carrying neither `client_msg_id` nor `ts`. -/
def eW10 : SlackEvent :=
  ⟨some "message", none, none, none, none, none, some "hello", none, none, none⟩

/-- A second distinct message event also lacking both id fields. -/
def eW10b : SlackEvent :=
  ⟨some "message", none, none, some "", none, none, some "other text", none, none, none⟩

/-! ### Helper lemmas -/

theorem takeWhile_of_all {p : Char → Bool} :
    ∀ l : List Char, (∀ c ∈ l, p c = true) → l.takeWhile p = l := by
  intro l h
  induction l with
  | nil => rfl
  | cons a l ih =>
    have ha : p a = true := h a (List.mem_cons_self a l)
    simp only [List.takeWhile_cons, ha, if_true]
    rw [ih fun c hc => h c (List.mem_cons_of_mem a hc)]

theorem takeWhile_append_stop {p : Char → Bool} (b : Char) (r : List Char)
    (hb : p b = false) :
    ∀ l : List Char, (∀ c ∈ l, p c = true) → (l ++ b :: r).takeWhile p = l := by
  intro l hl
  induction l with
  | nil => simp [List.takeWhile_cons, hb]
  | cons a l ih =>
    have ha : p a = true := hl a (List.mem_cons_self a l)
    simp only [List.cons_append, List.takeWhile_cons, ha, if_true]
    rw [ih fun c hc => hl c (List.mem_cons_of_mem a hc)]

theorem dropMatch_append : ∀ l r : List Char, dropMatch l (l ++ r) = some r := by
  intro l r
  induction l with
  | nil => rfl
  | cons a l ih => simp [dropMatch, ih]

theorem evictOldest_length_le (n : Nat) : ∀ l, (evictOldest n l).length ≤ n := by
  intro l
  induction l with
  | nil => simp [evictOldest]
  | cons k ks ih =>
    simp only [evictOldest]
    by_cases h : ks.length + 1 > n
    · rw [if_pos h]; exact ih
    · rw [if_neg h]; simp only [List.length_cons]; omega

theorem evictOldest_of_le (n : Nat) :
    ∀ l : List (Option String), l.length ≤ n → evictOldest n l = l := by
  intro l h
  cases l with
  | nil => rfl
  | cons k ks =>
    simp only [List.length_cons] at h
    simp only [evictOldest]
    rw [if_neg (by omega)]

theorem evictOldest_concat_full (n : Nat) (l : List (Option String)) (a : Option String)
    (h : l.length = n) : evictOldest n (l ++ [a]) = (l ++ [a]).tail := by
  cases l with
  | nil =>
    have h0 : n = 0 := by simpa using h.symm
    subst h0
    simp only [List.nil_append, evictOldest]
    rw [if_pos (by simp)]
    rfl
  | cons k ks =>
    simp only [List.length_cons] at h
    have hlen : (ks ++ [a]).length = ks.length + 1 := by simp
    simp only [List.cons_append, evictOldest, List.append_eq]
    rw [if_pos (by omega), evictOldest_of_le n _ (by omega)]
    rfl

theorem mem_evictOldest_concat (n : Nat) (hn : 1 ≤ n) :
    ∀ (l : List (Option String)) (a : Option String), a ∈ evictOldest n (l ++ [a]) := by
  intro l a
  induction l with
  | nil =>
    simp only [List.nil_append, evictOldest]
    rw [if_neg (by simp; omega)]
    simp
  | cons k ks ih =>
    simp only [List.cons_append, evictOldest, List.append_eq]
    by_cases h : (ks ++ [a]).length + 1 > n
    · rw [if_pos h]; exact ih
    · rw [if_neg h]; simp

theorem insertAll_fresh (n : Nat) :
    ∀ (l : List (Option String)) (d : LimitedSizeDict),
      d.size_limit = some n → (d.keys ++ l).Nodup → d.keys.length + l.length ≤ n →
      (insertAll d l).keys = d.keys ++ l := by
  intro l
  induction l with
  | nil => intro d _ _ _; simp [insertAll]
  | cons a l ih =>
    intro d hd hnd hlen
    simp only [List.length_cons] at hlen
    have ha : a ∉ d.keys := fun hmem =>
      (List.nodup_append.mp hnd).2.2 hmem (List.mem_cons_self a l)
    have hkeys : (setItem d a).keys = d.keys ++ [a] := by
      have hle : (d.keys ++ [a]).length ≤ n := by
        simp only [List.length_append, List.length_cons, List.length_nil]
        omega
      simp [setItem, hd, applyLimit, ha, evictOldest_of_le n _ hle]
    have hlimit : (setItem d a).size_limit = some n := by simp [setItem, hd]
    have step : insertAll d (a :: l) = insertAll (setItem d a) l := by
      simp [insertAll]
    rw [step]
    have hnd' : ((setItem d a).keys ++ l).Nodup := by
      rw [hkeys]
      simpa [List.append_assoc] using hnd
    have hlen' : (setItem d a).keys.length + l.length ≤ n := by
      rw [hkeys]
      simp only [List.length_append, List.length_cons, List.length_nil]
      omega
    rw [ih (setItem d a) hlimit hnd' hlen', hkeys]
    simp

theorem replaceGo_cons_of_no_match (pat rep : List Char) (c : Char) (cs : List Char)
    (h : dropMatch pat (c :: cs) = none) :
    ∀ fuel, ∃ z, replaceGo pat rep fuel (c :: cs) = c :: z := by
  intro fuel
  cases fuel with
  | zero => exact ⟨cs, rfl⟩
  | succ m => exact ⟨replaceGo pat rep m cs, by simp [replaceGo, h]⟩

theorem stripTrailingPunct_concat (l : List Char) (b : Char) (hb : isTrailPunct b = false) :
    stripTrailingPunct (l ++ [b]) = l ++ [b] := by
  simp [stripTrailingPunct, List.dropWhile_cons, hb]

theorem matchSchemeAt_https (r : List Char) :
    matchSchemeAt ('h' :: 't' :: 't' :: 'p' :: 's' :: ':' :: '/' :: '/' :: r) =
      some (schemeHttps, r) := rfl

theorem matchSchemeAt_http (r : List Char) :
    matchSchemeAt ('h' :: 't' :: 't' :: 'p' :: ':' :: '/' :: '/' :: r) =
      some (schemeHttp, r) := rfl

theorem slack_events_records (c : LimitedSizeDict) (f : String → String) (e : SlackEvent)
    (h1 : ¬(e.subtype = some "message_changed" ∨ pyTruthy e.bot_id = true))
    (h2 : e.type = some "message") (h3 : messageId e ∉ c.keys) :
    slack_events c f ⟨none, some e⟩ =
      ⟨SlackResponse.ok, setItem c (messageId e),
        if eventHasUrl e then some (handle_message e f) else none⟩ := by
  simp [slack_events, h1, h2, h3]

theorem slack_events_already (c : LimitedSizeDict) (f : String → String) (e : SlackEvent)
    (h1 : ¬(e.subtype = some "message_changed" ∨ pyTruthy e.bot_id = true))
    (h2 : e.type = some "message") (h3 : messageId e ∈ c.keys) :
    slack_events c f ⟨none, some e⟩ = ⟨SlackResponse.alreadyProcessed, c, none⟩ := by
  simp [slack_events, h1, h2, h3]

theorem mem_setItem_self (c : LimitedSizeDict) (k : Option String) (n : Nat)
    (hn : c.size_limit = some n) (h1 : 1 ≤ n) (hk : k ∉ c.keys) :
    k ∈ (setItem c k).keys := by
  simp only [setItem, hn, applyLimit, if_neg hk]
  exact mem_evictOldest_concat n h1 c.keys k

/-- Preserving of the size bound by insertion folds. -/
theorem insertAll_size_limit :
    ∀ (l : List (Option String)) (d : LimitedSizeDict),
      (insertAll d l).size_limit = d.size_limit := by
  intro l
  induction l with
  | nil => intro d; rfl
  | cons a l ih =>
    intro d
    have step : insertAll d (a :: l) = insertAll (setItem d a) l := by simp [insertAll]
    rw [step, ih]
    rfl

/-! ### Claim theorems -/

/-- Claim C1: once the pipeline records a message id in the cache, a
membership check for that id succeeds, and — for any later cache state in
which the id is still present, i.e. before eviction — every further delivery
with the same id exits with the already-processed outcome, leaves the cache
unchanged, and never dispatches `handle_message` again, so the
fetch-summarize-reply handling runs at most once. -/
theorem c1_record_then_idempotent (c : LimitedSizeDict) (n : Nat) (f : String → String)
    (e e₂ : SlackEvent)
    (hn : c.size_limit = some n) (hpos : 1 ≤ n)
    (hskip : ¬(e.subtype = some "message_changed" ∨ pyTruthy e.bot_id = true))
    (hty : e.type = some "message")
    (hnew : messageId e ∉ c.keys)
    (hskip₂ : ¬(e₂.subtype = some "message_changed" ∨ pyTruthy e₂.bot_id = true))
    (hty₂ : e₂.type = some "message")
    (hid : messageId e₂ = messageId e) :
    messageId e ∈ (slack_events c f ⟨none, some e⟩).cache.keys ∧
      ∀ c₂ : LimitedSizeDict, messageId e ∈ c₂.keys →
        slack_events c₂ f ⟨none, some e₂⟩ = ⟨SlackResponse.alreadyProcessed, c₂, none⟩ := by
  constructor
  · rw [slack_events_records c f e hskip hty hnew]
    exact mem_setItem_self c (messageId e) n hn hpos hnew
  · intro c₂ hmem
    exact slack_events_already c₂ f e₂ hskip₂ hty₂ (by rw [hid]; exact hmem)

/-- Evaluation of C1 at a concrete delivery and redelivery. -/
theorem c1_record_then_idempotent_witness :
    messageId eW1 ∈ (slack_events emptyCache3 summarizeConst ⟨none, some eW1⟩).cache.keys ∧
      slack_events (slack_events emptyCache3 summarizeConst ⟨none, some eW1⟩).cache
          summarizeConst ⟨none, some eW1⟩ =
        ⟨SlackResponse.alreadyProcessed,
          (slack_events emptyCache3 summarizeConst ⟨none, some eW1⟩).cache, none⟩ := by
  have h := c1_record_then_idempotent emptyCache3 3 summarizeConst eW1 eW1
    rfl (by decide) (by decide) (by decide) (by decide) (by decide) (by decide) rfl
  exact ⟨h.1, h.2 _ h.1⟩

/-- Claim C2: with the capacity configured, any insertion leaves at most
`capacity` entries; and inserting `capacity + 1` distinct ids into an empty
cache evicts exactly the first-inserted id, leaving the tail of the insertion
sequence in insertion order (FIFO eviction; `contains` lookups never mutate
the model state, so lookups cannot affect the order). -/
theorem c2_capacity_and_fifo_eviction (d : LimitedSizeDict) (k : Option String)
    (n : Nat) (l : List (Option String)) (hd : d.size_limit = some n) :
    (setItem d k).keys.length ≤ n ∧
      (l.Nodup → l.length = n + 1 → (insertAll ⟨[], some n⟩ l).keys = l.tail) := by
  constructor
  · simp only [setItem, hd, applyLimit]
    exact evictOldest_length_le n _
  · intro hnd hlen
    rcases List.eq_nil_or_concat' l with rfl | ⟨l₀, z, rfl⟩
    · simp at hlen
    · have hl₀ : l₀.length = n := by
        simp only [List.length_append, List.length_cons, List.length_nil] at hlen
        omega
      have hndl₀ : l₀.Nodup := hnd.of_append_left
      have hz : z ∉ l₀ := fun hmem =>
        (List.nodup_append.mp hnd).2.2 hmem (List.mem_cons_self z [])
      have hsplit : insertAll ⟨[], some n⟩ (l₀ ++ [z]) =
          setItem (insertAll ⟨[], some n⟩ l₀) z := by
        simp [insertAll, List.foldl_append]
      have hkeys : (insertAll ⟨[], some n⟩ l₀).keys = l₀ := by
        have := insertAll_fresh n l₀ ⟨[], some n⟩ rfl (by simpa using hndl₀) (by simp; omega)
        simpa using this
      have hlim : (insertAll ⟨[], some n⟩ l₀).size_limit = some n :=
        insertAll_size_limit l₀ ⟨[], some n⟩
      rw [hsplit]
      simp only [setItem, hlim, applyLimit, hkeys, if_neg hz]
      exact evictOldest_concat_full n l₀ z hl₀

/-- Evaluation of C2 at capacity 2 with three distinct ids. -/
theorem c2_capacity_and_fifo_eviction_witness :
    (setItem emptyCache3 (some "k")).keys.length ≤ 3 ∧
      (insertAll ⟨[], some 2⟩ [some "a", some "b", some "c"]).keys =
        [some "a", some "b", some "c"].tail := by
  have h1 := c2_capacity_and_fifo_eviction emptyCache3 (some "k") 3 [] rfl
  have h2 := c2_capacity_and_fifo_eviction ⟨[], some 2⟩ (some "k") 2
    [some "a", some "b", some "c"] (by decide)
  exact ⟨h1.1, h2.2 (by decide) (by decide)⟩

/-- Claim C4, counterexample: an event whose `bot_id` field is present (set)
but equal to the empty string is NOT skipped — Python `event.get('bot_id')`
is falsy for `""` — and it IS inserted into the cache and dispatched to the
extractor, contradicting the claim for events with `bot_id` set. -/
theorem c4_counterexample :
    eC4x.bot_id.isSome = true ∧
      (slack_events emptyCache3 summarizeConst ⟨none, some eC4x⟩).response =
        SlackResponse.ok ∧
      SlackResponse.ok ≠ SlackResponse.skipped ∧
      (slack_events emptyCache3 summarizeConst ⟨none, some eC4x⟩).cache.keys =
        [some "mX"] ∧
      (slack_events emptyCache3 summarizeConst ⟨none, some eC4x⟩).dispatched.isSome =
        true := by
  decide

/-- Claim C4 (amended): for every inbound event whose `subtype` is
`message_changed` or whose `bot_id` is present with a non-empty value (Python
truthiness), the pipeline answers `skipped`, the cache is unchanged, and
`handle_message` is never invoked. -/
theorem c4_skip_rules_amended (c : LimitedSizeDict) (f : String → String) (e : SlackEvent)
    (h : e.subtype = some "message_changed" ∨ pyTruthy e.bot_id = true) :
    slack_events c f ⟨none, some e⟩ = ⟨SlackResponse.skipped, c, none⟩ := by
  simp [slack_events, h]

/-- Evaluation of amended C4 at a concrete edited-message event. -/
theorem c4_skip_rules_amended_witness :
    slack_events emptyCache3 summarizeConst ⟨none, some eW4⟩ =
      ⟨SlackResponse.skipped, emptyCache3, none⟩ :=
  c4_skip_rules_amended emptyCache3 summarizeConst eW4 (Or.inl (by decide))

/-- Claim C6, counterexample: a corrupt durable store does NOT yield a fresh
empty cache — `pickle.load` raises and only `FileNotFoundError` is caught, so
the load is fatal. -/
theorem c6_counterexample :
    load_processed_messages StoreFile.corrupt ≠
        Except.ok (⟨[], some 1000⟩ : LimitedSizeDict) ∧
      load_processed_messages StoreFile.corrupt = Except.error "UnpicklingError" := by
  constructor
  · intro h
    exact Except.noConfusion h
  · rfl

/-- Claim C6 (amended): a missing durable store yields a fresh empty cache
with the configured capacity 1000; a corrupt store, however, raises (the
exception propagates out of `load_processed_messages`). -/
theorem c6_load_missing_amended :
    load_processed_messages StoreFile.missing =
        Except.ok (⟨[], some 1000⟩ : LimitedSizeDict) ∧
      load_processed_messages StoreFile.corrupt = Except.error "UnpicklingError" :=
  ⟨rfl, rfl⟩

/-- Claim C7, counterexample: a well-formed envelope whose `event.type` is
not `message` (and which matches no skip rule) is answered with `ok`, not
`skipped`; the cache is unchanged and nothing is dispatched. -/
theorem c7_counterexample :
    (slack_events emptyCache3 summarizeConst ⟨none, some eC7x⟩).response =
        SlackResponse.ok ∧
      SlackResponse.ok ≠ SlackResponse.skipped ∧
      slack_events emptyCache3 summarizeConst ⟨none, some eC7x⟩ =
        ⟨SlackResponse.ok, emptyCache3, none⟩ := by
  decide

/-- Claim C7 (amended): for every envelope whose `event.type` is not
`message` and which matches no skip rule, the pipeline records nothing,
extracts nothing and dispatches nothing — but the response it signals is
`ok` (the final `return jsonify({'status': 'ok'})`), not `skipped`. -/
theorem c7_non_message_amended (c : LimitedSizeDict) (f : String → String) (e : SlackEvent)
    (hskip : ¬(e.subtype = some "message_changed" ∨ pyTruthy e.bot_id = true))
    (hty : e.type ≠ some "message") :
    slack_events c f ⟨none, some e⟩ = ⟨SlackResponse.ok, c, none⟩ := by
  simp [slack_events, hskip, hty]

/-- Evaluation of amended C7 at a concrete `reaction_added` event. -/
theorem c7_non_message_amended_witness :
    slack_events emptyCache3 summarizeConst ⟨none, some eC7x⟩ =
      ⟨SlackResponse.ok, emptyCache3, none⟩ :=
  c7_non_message_amended emptyCache3 summarizeConst eC7x (by decide) (by decide)

/-- Claim C9, counterexample: the capacity that is effective after a reload
is the one embedded in the stored record, not the process-wide constant 1000:
loading a stored record whose embedded `size_limit` is 5 yields a cache with
capacity 5. -/
theorem c9_counterexample :
    load_processed_messages (StoreFile.present ⟨some 5, [some "a"]⟩) =
        Except.ok (⟨[some "a"], some 5⟩ : LimitedSizeDict) ∧
      load_processed_messages (StoreFile.present ⟨some 5, [some "a"]⟩) ≠
        Except.ok (⟨[some "a"], some 1000⟩ : LimitedSizeDict) := by
  constructor
  · rfl
  · intro h
    have := Except.ok.inj h
    have h5 : (some 5 : Option Nat) = some 1000 := congrArg LimitedSizeDict.size_limit this
    simp at h5

/-- Claim C9 (amended): saving a cache with N ids and reloading yields a
cache with the same ids in the same insertion order, the same capacity, and
hence the same eviction behavior going forward — but the capacity comes from
the stored record itself (pickle round-trips the `size_limit` attribute),
not from an external constant; it equals 1000 in practice only because the
program never creates a cache with any other limit. -/
theorem c9_round_trip_amended (d : LimitedSizeDict) :
    load_processed_messages (StoreFile.present (saveProcessedMessages d)) =
      Except.ok d := rfl

/-- Claim C10: a `message` event carrying neither `client_msg_id` nor `ts`
(or an empty `client_msg_id` and no `ts`) gets the null message id; the first
such event is recorded under the null key, and every subsequent such event —
though a distinct message — is answered `already processed`, with the cache
unchanged and without dispatch. -/
theorem c10_null_message_id (c : LimitedSizeDict) (n : Nat) (f : String → String)
    (e e₂ : SlackEvent)
    (hn : c.size_limit = some n) (hpos : 1 ≤ n)
    (hskip : ¬(e.subtype = some "message_changed" ∨ pyTruthy e.bot_id = true))
    (hty : e.type = some "message")
    (hcmi : e.client_msg_id = none ∨ e.client_msg_id = some "") (hts : e.ts = none)
    (hnew : none ∉ c.keys)
    (hskip₂ : ¬(e₂.subtype = some "message_changed" ∨ pyTruthy e₂.bot_id = true))
    (hty₂ : e₂.type = some "message")
    (hcmi₂ : e₂.client_msg_id = none ∨ e₂.client_msg_id = some "") (hts₂ : e₂.ts = none) :
    messageId e = none ∧
      (none : Option String) ∈ (slack_events c f ⟨none, some e⟩).cache.keys ∧
      slack_events (slack_events c f ⟨none, some e⟩).cache f ⟨none, some e₂⟩ =
        ⟨SlackResponse.alreadyProcessed,
          (slack_events c f ⟨none, some e⟩).cache, none⟩ := by
  have hide : messageId e = none := by
    rcases hcmi with h | h <;> simp [messageId, h, hts]
  have hide₂ : messageId e₂ = none := by
    rcases hcmi₂ with h | h <;> simp [messageId, h, hts₂]
  have hnew' : messageId e ∉ c.keys := by rw [hide]; exact hnew
  have hmem : (none : Option String) ∈ (slack_events c f ⟨none, some e⟩).cache.keys := by
    rw [slack_events_records c f e hskip hty hnew', hide]
    exact mem_setItem_self c none n hn hpos hnew
  refine ⟨hide, hmem, ?_⟩
  exact slack_events_already _ f e₂ hskip₂ hty₂ (by rw [hide₂]; exact hmem)

/-- Evaluation of C10 at two concrete distinct id-less message events. -/
theorem c10_null_message_id_witness :
    messageId eW10 = none ∧
      (none : Option String) ∈
        (slack_events emptyCache3 summarizeConst ⟨none, some eW10⟩).cache.keys ∧
      slack_events (slack_events emptyCache3 summarizeConst ⟨none, some eW10⟩).cache
          summarizeConst ⟨none, some eW10b⟩ =
        ⟨SlackResponse.alreadyProcessed,
          (slack_events emptyCache3 summarizeConst ⟨none, some eW10⟩).cache, none⟩ :=
  c10_null_message_id emptyCache3 3 summarizeConst eW10 eW10b
    rfl (by decide) (by decide) (by decide) (Or.inl (by decide)) (by decide) (by decide)
    (by decide) (by decide) (Or.inr (by decide)) (by decide)

/-- Claim C5, counterexample: with two link-bearing rich-text sections the
extractor returns the first link of the LAST such section, not the first link
in traversal order — the `break` only leaves the innermost loop and the outer
loops keep overwriting `url`. -/
theorem c5_counterexample :
    firstLinkInSection itemsW5a = some "https://first.example" ∧
      (handle_message eW5 summarizeConst).1 = some "https://second.example" ∧
      (handle_message eW5 summarizeConst).1 ≠ some "https://first.example" := by
  decide

/-- Claim C5 (amended): blocks are traversed in order and within a single
rich-text section the first link-typed element with a `url` field wins; but
traversal does not stop there — a later link-bearing section overwrites the
result, so with several link-bearing sections the URL returned is the first
link of the last such section, not the first link in traversal order. -/
theorem c5_rich_text_last_section_amended (items1 items2 : List RTItem) (v1 v2 : String)
    (e : SlackEvent) (f : String → String)
    (h1 : firstLinkInSection items1 = some v1)
    (h2 : firstLinkInSection items2 = some v2)
    (hne : v1 ≠ v2)
    (htext : e.text = none)
    (hblocks : e.blocks =
      some [⟨some "rich_text",
             [⟨some "rich_text_section", items1⟩, ⟨some "rich_text_section", items2⟩],
             none⟩]) :
    (handle_message e f).1 = some v2 ∧ (handle_message e f).1 ≠ some v1 := by
  have hurl : (handle_message e f).1 = some v2 := by
    have h0 : extract_url (rewriteAngle "") = none := rfl
    simp only [handle_message, htext, hblocks, Option.getD_none, h0]
    simp [scanBlocks, scanElements, h1, h2, pyTruthy]
  refine ⟨hurl, ?_⟩
  rw [hurl]
  intro hcontra
  exact hne (Option.some.inj hcontra).symm

/-- Evaluation of amended C5 at the concrete two-section message. -/
theorem c5_rich_text_last_section_amended_witness :
    (handle_message eW5 summarizeConst).1 = some "https://second.example" ∧
      (handle_message eW5 summarizeConst).1 ≠ some "https://first.example" :=
  c5_rich_text_last_section_amended itemsW5a itemsW5b
    "https://first.example" "https://second.example" eW5 summarizeConst
    (by decide) (by decide) (by decide) rfl rfl

/-- Claim C8, counterexample: a message whose `thread_ts` field is present
but empty gets its reply rooted at the message's own `ts`, not at the
(present) `thread_ts` — Python truthiness again. -/
theorem c8_counterexample :
    eC8x.thread_ts = some "" ∧
      Option.map Reply.thread_ts (handle_message eC8x summarizeConst).2 = some "200.0" ∧
      (some "200.0" : Option String) ≠ some "" := by
  decide

/-- Claim C8 (amended): whenever `handle_message` posts a reply, the reply's
thread timestamp is the message's `thread_ts` when that field is present AND
non-empty, and the message's own `ts` when `thread_ts` is absent (or empty). -/
theorem c8_thread_resolution_amended (e : SlackEvent) (f : String → String) (r : Reply)
    (hr : (handle_message e f).2 = some r) :
    (∀ t, e.thread_ts = some t → t ≠ "" → r.thread_ts = t) ∧
      (e.thread_ts = none → r.thread_ts = e.ts.getD "") := by
  have hrt : r.thread_ts = replyThreadTs e := by
    simp only [handle_message] at hr
    repeat' split at hr
    all_goals
      first
      | (obtain rfl := Option.some.inj hr; rfl)
      | (exact absurd hr (by simp))
  constructor
  · intro t ht htne
    rw [hrt]
    simp [replyThreadTs, ht, htne]
  · intro hnone
    rw [hrt]
    simp [replyThreadTs, hnone]

/-- Evaluation of amended C8 at a concrete threaded message. -/
theorem c8_thread_resolution_amended_witness :
    (handle_message eW8 summarizeConst).2 = some rW8 ∧ rW8.thread_ts = "100.1" :=
  ⟨by decide,
   (c8_thread_resolution_amended eW8 summarizeConst rW8 (by decide)).1 "100.1"
     (by decide) (by decide)⟩

/-- The leftmost plain-URL scan at a position where a scheme is immediately
followed by the non-space run `B` and then by nothing or whitespace. -/
theorem searchPlain_at_scheme (scheme B tail' : List Char)
    (hs : scheme = schemeHttp ∨ scheme = schemeHttps)
    (hBE : B.isEmpty = false)
    (hBns : ∀ c ∈ B, (!(pyIsSpace c)) = true)
    (htail : tail' = [] ∨ ∃ r0 r', tail' = r0 :: r' ∧ pyIsSpace r0 = true) :
    searchPlainUrl (scheme ++ (B ++ tail')) = some (scheme ++ B) := by
  have htw : (B ++ tail').takeWhile (fun d => !(pyIsSpace d)) = B := by
    rcases htail with rfl | ⟨r0, r', rfl, hr0⟩
    · rw [List.append_nil]; exact takeWhile_of_all B hBns
    · exact takeWhile_append_stop r0 r' (by simp [hr0]) B hBns
  rcases hs with rfl | rfl
  · show searchPlainUrl
      ('h' :: 't' :: 't' :: 'p' :: ':' :: '/' :: '/' :: (B ++ tail')) = _
    simp only [searchPlainUrl, matchSchemeAt_http, htw, hBE]
    rfl
  · show searchPlainUrl
      ('h' :: 't' :: 't' :: 'p' :: 's' :: ':' :: '/' :: '/' :: (B ++ tail')) = _
    simp only [searchPlainUrl, matchSchemeAt_https, htw, hBE]
    rfl

/-- The angle-bracket regex matches at a position of the canonical labelled
form `<scheme BODY|label>rest`, with group 0 the full bracketed form and
group 1 the bare URL. -/
theorem matchAngleAt_full (scheme B lab rest : List Char)
    (hs : scheme = schemeHttp ∨ scheme = schemeHttps)
    (hBE : B.isEmpty = false)
    (hBpred : ∀ c ∈ B, angleBodyChar c = true)
    (hlabE : lab.isEmpty = false)
    (hlabPred : ∀ c ∈ lab, labChar c = true) :
    matchAngleAt ('<' :: (scheme ++ (B ++ ('|' :: (lab ++ ('>' :: rest)))))) =
      some ('<' :: (scheme ++ (B ++ ('|' :: (lab ++ ['>'])))), scheme ++ B) := by
  have htwB : (B ++ ('|' :: (lab ++ ('>' :: rest)))).takeWhile angleBodyChar = B :=
    takeWhile_append_stop '|' (lab ++ ('>' :: rest)) (by decide) B hBpred
  have hdrB : (B ++ ('|' :: (lab ++ ('>' :: rest)))).drop B.length =
      '|' :: (lab ++ ('>' :: rest)) := List.drop_left B _
  have htwL : (lab ++ ('>' :: rest)).takeWhile labChar = lab :=
    takeWhile_append_stop '>' rest (by decide) lab hlabPred
  have hdrL : (lab ++ ('>' :: rest)).drop lab.length = '>' :: rest := List.drop_left lab _
  have hsch : matchSchemeAt (scheme ++ (B ++ ('|' :: (lab ++ ('>' :: rest))))) =
      some (scheme, B ++ ('|' :: (lab ++ ('>' :: rest)))) := by
    rcases hs with rfl | rfl
    · exact matchSchemeAt_http _
    · exact matchSchemeAt_https _
  simp only [matchAngleAt, hsch, htwB, hdrB, htwL, hdrL, hBE, hlabE]
  simp

/-- One `str.replace` of a pattern sitting at the very front of the text:
the head of the remainder is preserved whenever the pattern cannot match at
the remainder's head. -/
theorem strReplace_split_head (c0 : Char) (g0t rep rest : List Char)
    (hno : ∀ r0 r', rest = r0 :: r' → dropMatch (c0 :: g0t) (r0 :: r') = none) :
    ∃ z, strReplace ((c0 :: g0t) ++ rest) (c0 :: g0t) rep = rep ++ z ∧
      z.head? = rest.head? := by
  refine ⟨replaceGo (c0 :: g0t) rep (g0t ++ rest).length rest, ?_, ?_⟩
  · simp only [strReplace, List.isEmpty_cons, List.cons_append, List.length_cons,
      Bool.false_eq_true, if_false]
    simp only [replaceGo]
    rw [show (c0 :: (g0t ++ rest)) = (c0 :: g0t) ++ rest from by simp, dropMatch_append]
  · cases hre : rest with
    | nil => simp [replaceGo]
    | cons r0 r' =>
      obtain ⟨zz, hzz⟩ :=
        replaceGo_cons_of_no_match (c0 :: g0t) rep r0 r' (hno r0 r' hre)
          ((g0t ++ (r0 :: r')).length)
      rw [hzz]
      rfl

/-- Claim C3, counterexample: in a text that contains both an angle-bracket
link and a later plain URL, the angle-bracket URL does NOT always win — a
plain URL occurring before the bracketed form is found first by the plain
scan after the rewrite. -/
theorem c3_counterexample :
    (handle_message eC3x summarizeConst).1 = some "https://c.com" ∧
      (handle_message eC3x summarizeConst).1 ≠ some "https://a.com" := by
  decide

/-- Claim C3 (amended): when the message text begins with the angle-bracket
link (so no plain URL precedes it) followed by whitespace or the end of the
text, the extractor rewrites the bracketed form `<url|label>` to the bare URL
before the plain scan runs, and the angle-bracket URL wins over any later
plain URL: the extracted URL is the bracket's URL with the label dropped. -/
theorem c3_angle_bracket_wins_amended
    (scheme body1 lab rest : List Char) (bl : Char) (e : SlackEvent) (f : String → String)
    (hs : scheme = schemeHttp ∨ scheme = schemeHttps)
    (htext : e.text = some (String.mk
      ('<' :: (scheme ++ ((body1 ++ [bl]) ++ ('|' :: (lab ++ ('>' :: rest))))))))
    (hblocks : e.blocks = none)
    (hbody : ∀ c ∈ body1 ++ [bl], c ≠ '>' ∧ c ≠ '|' ∧ pyIsSpace c = false)
    (hbl : isTrailPunct bl = false)
    (hlabne : lab ≠ []) (hlab : ∀ c ∈ lab, c ≠ '>')
    (hrest : rest.head?.all pyIsSpace = true) :
    (handle_message e f).1 = some (String.mk (scheme ++ (body1 ++ [bl]))) := by
  have hBE : (body1 ++ [bl]).isEmpty = false := by cases body1 <;> rfl
  have hlabE : lab.isEmpty = false := by
    cases lab with
    | nil => exact absurd rfl hlabne
    | cons a l => rfl
  have hBpred : ∀ c ∈ body1 ++ [bl], angleBodyChar c = true := fun c hc =>
    decide_eq_true ⟨(hbody c hc).1, (hbody c hc).2.1⟩
  have hBns : ∀ c ∈ body1 ++ [bl], (!(pyIsSpace c)) = true := fun c hc => by
    simp [(hbody c hc).2.2]
  have hlabPred : ∀ c ∈ lab, labChar c = true := fun c hc => decide_eq_true (hlab c hc)
  have hangle := matchAngleAt_full scheme (body1 ++ [bl]) lab rest hs hBE hBpred hlabE hlabPred
  have hsplit : ('<' :: (scheme ++ ((body1 ++ [bl]) ++ ('|' :: (lab ++ ('>' :: rest)))))) =
      ('<' :: (scheme ++ ((body1 ++ [bl]) ++ ('|' :: (lab ++ ['>']))))) ++ rest := by
    simp [List.append_assoc]
  have hno : ∀ r0 r', rest = r0 :: r' →
      dropMatch ('<' :: (scheme ++ ((body1 ++ [bl]) ++ ('|' :: (lab ++ ['>'])))))
        (r0 :: r') = none := by
    intro r0 r' hr
    have hsp : pyIsSpace r0 = true := by
      rw [hr] at hrest
      simpa using hrest
    have hne : ('<' : Char) ≠ r0 := fun h => by
      rw [← h] at hsp
      exact absurd hsp (by decide)
    simp [dropMatch, hne]
  obtain ⟨z, hzeq, hzhead⟩ :=
    strReplace_split_head '<' (scheme ++ ((body1 ++ [bl]) ++ ('|' :: (lab ++ ['>']))))
      (scheme ++ (body1 ++ [bl])) rest hno
  have hzshape : z = [] ∨ ∃ r0 r', z = r0 :: r' ∧ pyIsSpace r0 = true := by
    cases hzc : z with
    | nil => exact Or.inl rfl
    | cons a zz =>
      refine Or.inr ⟨a, zz, rfl, ?_⟩
      rw [hzc] at hzhead
      rw [← hzhead] at hrest
      simpa using hrest
  have hsearch := searchPlain_at_scheme scheme (body1 ++ [bl]) z hs hBE hBns hzshape
  have hrwa : rewriteAngle (String.mk
      ('<' :: (scheme ++ ((body1 ++ [bl]) ++ ('|' :: (lab ++ ('>' :: rest))))))) =
      String.mk ((scheme ++ (body1 ++ [bl])) ++ z) := by
    simp only [rewriteAngle, searchAngle, hangle]
    rw [hsplit, hzeq]
  have hurl0 : extract_url (rewriteAngle (String.mk
      ('<' :: (scheme ++ ((body1 ++ [bl]) ++ ('|' :: (lab ++ ('>' :: rest)))))))) =
      some (String.mk (scheme ++ (body1 ++ [bl]))) := by
    rw [hrwa]
    simp only [List.append_assoc] at hsearch
    simp only [extract_url, List.append_assoc, hsearch]
    rw [show scheme ++ (body1 ++ [bl]) = (scheme ++ body1) ++ [bl] from
      (List.append_assoc scheme body1 [bl]).symm]
    rw [stripTrailingPunct_concat (scheme ++ body1) bl hbl]
  simp only [handle_message, htext, hblocks, Option.getD_some, hurl0]
  simp

/-- Evaluation of amended C3 at the spec's own example text
`<https://a.com|paper> see also https://b.com`. -/
theorem c3_angle_bracket_wins_amended_witness :
    (handle_message eW3 summarizeConst).1 = some "https://a.com" := by
  have h := c3_angle_bracket_wins_amended schemeHttps ['a', '.', 'c', 'o']
    "paper".data " see also https://b.com".data 'm' eW3 summarizeConst
    (Or.inr rfl) (by decide) rfl (by decide) (by decide) (by decide) (by decide)
    (by decide)
  exact h.trans (by decide)
